import Mathlib

/-!
Verification of the MotorNet trial-generation and target-adaptation engine
(`MotorNet/tasks/tasks.py`).

The Python source is shallowly embedded over exact rational arithmetic:

* a tensor of shape `[batch, time, chan]` is a `List (List (List ℚ))`
  (trial-major, then time, then channel);
* the NumPy RNG is threaded explicitly: every `np.random.*` draw becomes a
  stream argument (`ℕ → ℚ`, indexed by trial), and theorems about sampled
  values carry the range hypotheses that the NumPy primitive guarantees
  (`np.random.uniform(lo, hi)` yields `lo ≤ r < hi`, `np.random.rand()`
  yields `0 ≤ r < 1`, `np.random.randint(0, n)` yields `i < n`);
* fallible NumPy constructions (`np.zeros` of a negative size, shape
  mismatches in slice assignments and concatenations) are embedded with
  `Except String`;
* the TensorFlow comparison `sqrt (Σ (c-t)²) ≤ tol` against the fixed
  nonnegative tolerances is embedded squared, as `Σ (c-t)² ≤ tol²`, which
  is equivalent since `sqrt` is a monotone bijection on nonnegatives; the
  identically-zero distance channels are compared to the tolerance
  unsquared, exactly as in the source.
-/

/-- A channel row of a tensor: one `[chan]`-vector of rationals. -/
abbrev Row : Type := List ℚ

/-- One trial: a `[time, chan]` slice. -/
abbrev Tensor2 : Type := List Row

/-- A batch tensor `[batch, time, chan]`. -/
abbrev Tensor3 : Type := List Tensor2

/-- Python `int()` applied to a real value: truncation toward zero. -/
def truncInt (q : ℚ) : ℤ :=
  if 0 ≤ q then ⌊q⌋ else -⌊-q⌋

/-- `generate_delay_time(delay_min, delay_max, delay_mode)` from
`tasks.py`.  The value `r` is the explicit RNG draw consumed by
`np.random.uniform(delay_min, delay_max)` in the `random` branch
(callers supply `delay_min ≤ r < delay_max`); mode `noDelayInput`
returns `int(0) = 0`; any other mode raises `AttributeError`. -/
def generate_delay_time (delay_min delay_max : ℚ) (delay_mode : String) (r : ℚ) :
    Except String ℤ :=
  if delay_mode = "random" then .ok (truncInt r)
  else if delay_mode = "noDelayInput" then .ok 0
  else .error "AttributeError"

/-- Squared euclidean distance between the first two channels (the
cartesian positions) of an output row and a target row:
`tf.reduce_sum((cartesian_pos[:, :, 0:2] - targets[:, :, 0:2])**2, axis=2)`. -/
def distSq (c t : Row) : ℚ :=
  (c.getD 0 0 - t.getD 0 0) ^ 2 + (c.getD 1 0 - t.getD 1 0) ^ 2

/-- One `(trial, timestep)` cell of `TaskDelayedReach.recompute_targets`.
The tiled 4-channel distance tensor is `[d, d, 0, 0]` (where `d` is the
euclidean distance) and the replacement tensor `cartesian_pos_no_vel` is
`[c₀, c₁, 0, 0]`; `tf.where(dist ≤ 0.1, cartesian_pos_no_vel, targets)`
selects per channel.  `sqrt distSq ≤ 0.1` is embedded as
`distSq ≤ (1/10)²`; on the two zero channels the comparison `0 ≤ 0.1`
is kept literally. -/
def delayedReach_recompute_row (c t : Row) : Row :=
  [ if distSq c t ≤ (1/10) ^ 2 then c.getD 0 0 else t.getD 0 0,
    if distSq c t ≤ (1/10) ^ 2 then c.getD 1 0 else t.getD 1 0,
    if (0:ℚ) ≤ 1/10 then 0 else t.getD 2 0,
    if (0:ℚ) ≤ 1/10 then 0 else t.getD 3 0 ]

/-- One `(trial, timestep)` cell of `TaskLoadProbability.recompute_targets`.
`mark` is the load channel `inputs[0][:, :, 3]`; where it equals `-1`
the distance is forced to the sentinel `1000` (squared here, matching
the squared embedding) before the tolerance test against `0.035 = 7/200`. -/
def loadProb_recompute_row (mark : ℚ) (c t : Row) : Row :=
  let d : ℚ := if mark = -1 then (1000:ℚ) ^ 2 else distSq c t
  [ if d ≤ (7/200) ^ 2 then c.getD 0 0 else t.getD 0 0,
    if d ≤ (7/200) ^ 2 then c.getD 1 0 else t.getD 1 0,
    if (0:ℚ) ≤ 7/200 then 0 else t.getD 2 0,
    if (0:ℚ) ≤ 7/200 then 0 else t.getD 3 0 ]

/-- Pointwise ternary zip, truncating to the shortest list (the shapes
always agree in the source). -/
def zipWith3 {α β γ δ : Type} (f : α → β → γ → δ) : List α → List β → List γ → List δ
  | a :: as, b :: bs, c :: cs => f a b c :: zipWith3 f as bs cs
  | _, _, _ => []

/-- `TaskDelayedReach.recompute_targets(inputs, targets, outputs)`:
`outputs` is the rolled-out cartesian position tensor
`outputs['cartesian position']`. -/
def recompute_targets_delayed (outputs targets : Tensor3) : Tensor3 :=
  List.zipWith (fun ct tt => List.zipWith delayedReach_recompute_row ct tt) outputs targets

/-- `TaskLoadProbability.recompute_targets(inputs, targets, outputs)`:
`inputs` is the list whose head `inputs[0]` is the network-input tensor,
whose channel 3 is the load/marker channel. -/
def recompute_targets_loadProb (inputs : List Tensor3) (outputs targets : Tensor3) : Tensor3 :=
  zipWith3
    (fun itr ctr ttr =>
      zipWith3 (fun irow crow trow => loadProb_recompute_row (irow.getD 3 0) crow trow) itr ctr ttr)
    (inputs.getD 0 []) outputs targets

section IndexLemmas

/-- Reading a `zipWith` at a position inside both lists. -/
theorem getD_zipWith {α β γ : Type} (f : α → β → γ) (a : List α) (b : List β)
    (i : ℕ) (da : α) (db : β) (dc : γ) (ha : i < a.length) (hb : i < b.length) :
    (List.zipWith f a b).getD i dc = f (a.getD i da) (b.getD i db) := by
  induction a generalizing b i with
  | nil => simp at ha
  | cons x xs ih =>
    cases b with
    | nil => simp at hb
    | cons y ys =>
      cases i with
      | zero => rfl
      | succ j =>
        simp only [List.zipWith_cons_cons, List.getD_cons_succ]
        exact ih ys j (by simpa using ha) (by simpa using hb)

/-- Reading a `zipWith3` at a position inside all three lists. -/
theorem getD_zipWith3 {α β γ δ : Type} (f : α → β → γ → δ) (a : List α) (b : List β)
    (c : List γ) (i : ℕ) (da : α) (db : β) (dc : γ) (dd : δ)
    (ha : i < a.length) (hb : i < b.length) (hc : i < c.length) :
    (zipWith3 f a b c).getD i dd = f (a.getD i da) (b.getD i db) (c.getD i dc) := by
  induction a generalizing b c i with
  | nil => simp at ha
  | cons x xs ih =>
    cases b with
    | nil => simp at hb
    | cons y ys =>
      cases c with
      | nil => simp at hc
      | cons z zs =>
        cases i with
        | zero => rfl
        | succ j =>
          simp only [zipWith3, List.getD_cons_succ]
          exact ih ys zs j (by simpa using ha) (by simpa using hb) (by simpa using hc)

/-- Length of a `zipWith3`. -/
theorem length_zipWith3 {α β γ δ : Type} (f : α → β → γ → δ) (a : List α) (b : List β)
    (c : List γ) :
    (zipWith3 f a b c).length = min a.length (min b.length c.length) := by
  induction a generalizing b c with
  | nil => simp [zipWith3]
  | cons x xs ih =>
    cases b with
    | nil => simp [zipWith3]
    | cons y ys =>
      cases c with
      | nil => simp [zipWith3]
      | cons z zs => simp [zipWith3, ih, Nat.succ_min_succ]

/-- Reading a mapped `List.range` at a position below the bound. -/
theorem getD_range_map {α : Type} (f : ℕ → α) (m t : ℕ) (d : α) (ht : t < m) :
    (((List.range m).map f).getD t d) = f t := by
  rw [List.getD, List.get?_eq_getElem?, List.getElem?_map, List.getElem?_range ht]
  rfl

end IndexLemmas

/-- Sequencing of the per-trial `Except` computations of a batch loop:
the whole `generate` call succeeds exactly when every trial construction
does (the first NumPy error aborts the call). -/
def collectE {α : Type} : List (Except String α) → Except String (List α)
  | [] => .ok []
  | .error e :: _ => .error e
  | .ok a :: rest => (collectE rest).map (fun l => a :: l)

section CollectLemmas

theorem collectE_ok_length {α : Type} :
    ∀ {xs : List (Except String α)} {ys : List α},
      collectE xs = .ok ys → ys.length = xs.length := by
  intro xs
  induction xs with
  | nil => intro ys h; simp [collectE] at h; simp [← h]
  | cons x rest ih =>
    intro ys h
    cases x with
    | error e => simp [collectE] at h
    | ok a =>
      simp only [collectE] at h
      cases hrest : collectE rest with
      | error e => rw [hrest] at h; simp [Except.map] at h
      | ok zs =>
        rw [hrest] at h
        simp [Except.map] at h
        subst h
        simp [ih hrest]

theorem collectE_ok_getD {α : Type} :
    ∀ {xs : List (Except String α)} {ys : List α},
      collectE xs = .ok ys → ∀ (i : ℕ) (d : α), i < xs.length →
        xs.getD i (.error "") = .ok (ys.getD i d) := by
  intro xs
  induction xs with
  | nil => intro ys h i d hi; simp at hi
  | cons x rest ih =>
    intro ys h i d hi
    cases x with
    | error e => simp [collectE] at h
    | ok a =>
      simp only [collectE] at h
      cases hrest : collectE rest with
      | error e => rw [hrest] at h; simp [Except.map] at h
      | ok zs =>
        rw [hrest] at h
        simp [Except.map] at h
        subst h
        cases i with
        | zero => rfl
        | succ j =>
          simp only [List.getD_cons_succ]
          exact ih hrest j d (by simpa using hi)

theorem collectE_ok_mem {α : Type} :
    ∀ {xs : List (Except String α)} {ys : List α},
      collectE xs = .ok ys → ∀ y ∈ ys, ∃ x ∈ xs, x = .ok y := by
  intro xs
  induction xs with
  | nil => intro ys h y hy; simp [collectE] at h; subst h; simp at hy
  | cons x rest ih =>
    intro ys h y hy
    cases x with
    | error e => simp [collectE] at h
    | ok a =>
      simp only [collectE] at h
      cases hrest : collectE rest with
      | error e => rw [hrest] at h; simp [Except.map] at h
      | ok zs =>
        rw [hrest] at h
        simp [Except.map] at h
        subst h
        rcases List.mem_cons.mp hy with hya | hyz
        · exact ⟨.ok a, by simp, by rw [hya]⟩
        · rcases ih hrest y hyz with ⟨x, hx, hxy⟩
          exact ⟨x, by simp [hx], hxy⟩

end CollectLemmas

/-!  ## Task base class (`Task.__init__`, `Task.get_initial_state`)  -/

/-- The `initial_joint_state` constructor argument: either a 1-D vector
or a 2-D pool of joint states (before `np.array` conversion). -/
inductive InitialJointArg : Type
  | vec1d (v : Row)
  | mat2d (m : Tensor2)

/-- `Task.__init__`: a 1-D `initial_joint_state` is reshaped by
`reshape(1, -1)` into a pool holding exactly that one state; a 2-D
argument is kept as is; `None` leaves no pool. -/
def task_initial_pool : Option InitialJointArg → Option Tensor2
  | Option.none => Option.none
  | some (.vec1d v) => some [v]
  | some (.mat2d m) => some m

/-- `Task.get_initial_state(batch_size)`: with a pool present, draw
`batch_size` indices (the stream `idx`, each in `[0, pool.length)` as
guaranteed by `np.random.randint`) and forward the selected rows to
`controller.get_initial_state(batch_size, inputs)`; with no pool the
controller receives `None`.  The controller itself is an external
collaborator, abstracted as the function `ctrl`. -/
def task_get_initial_state {σ : Type} (ctrl : ℕ → Option Tensor2 → σ)
    (pool : Option Tensor2) (idx : ℕ → ℕ) (batch : ℕ) : σ :=
  ctrl batch (pool.map fun P => (List.range batch).map fun k => P.getD (idx k) [])

/-!  ## Plant interface and the static-target generators  -/

/-- Modelled from the spec: `plant.state2target(state, n_timesteps)`
tiles each trial's (cartesian) state row into a constant trajectory of
`n_timesteps` rows, giving the `[batch, time, state_dim]` target tensor.
(The plant lives outside the covered source; `TaskLoadProbability`
builds the same shape with `np.tile(goal_state, (batch_size,
n_timesteps, 1))`.) -/
def state2target (states : Tensor2) (n : ℕ) : Tensor3 :=
  states.map (fun s => List.replicate n s)

/-- `TaskStaticTarget.generate(batch_size, n_timesteps)`: `j2c` is the
plant's `joint2cartesian`, `sd` its `space_dim`, and `goalDraw` the RNG
stream behind `plant.draw_random_uniform_states` (one joint-state row
per trial).  Returns `(inputs, targets)`; `inputs` is
`targets[:, :, 0:space_dim]`. -/
def staticTarget_generate (j2c : Row → Row) (sd : ℕ) (goalDraw : ℕ → Row)
    (batch n : ℕ) : Tensor3 × Tensor3 :=
  let targets := state2target (((List.range batch).map goalDraw).map j2c) n
  (targets.map (fun tr => tr.map (fun row => row.take sd)), targets)

/-- `TaskStaticTargetWithPerturbations.generate(batch_size, n_timesteps)`:
like the static task, but the input gets two extra channels holding the
constant perturbation `5`. -/
def staticPert_generate (j2c : Row → Row) (sd : ℕ) (goalDraw : ℕ → Row)
    (batch n : ℕ) : Tensor3 × Tensor3 :=
  let targets := state2target (((List.range batch).map goalDraw).map j2c) n
  (targets.map (fun tr => tr.map (fun row => row.take sd ++ [5, 5])), targets)

/-!  ## `TaskDelayedReach`  -/

/-- The cue (bump) channel of one `TaskDelayedReach` trial:
`np.concatenate([np.zeros(delay_time), np.ones(bump_length)*bump_height,
np.zeros(int(n_timesteps - delay_time - bump_length))])`. -/
def delayedReach_bump (d bl : ℕ) (bh : ℚ) (n : ℕ) : List ℚ :=
  List.replicate d 0 ++ List.replicate bl bh ++ List.replicate (n - d - bl) 0

/-- The input slice of one `TaskDelayedReach` trial: the goal position
(channels 0–1, visible for the whole trial) with the cue appended as
channel 2. -/
def delayedReach_trial_input (goal : Row) (bump : List ℚ) : Tensor2 :=
  bump.map (fun b => goal.take 2 ++ [b])

/-- The target slice of one `TaskDelayedReach` trial after the write
`targets[i, 0:delay_time, :] = center`. -/
def delayedReach_trial_target (center goal : Row) (d n : ℕ) : Tensor2 :=
  (List.range n).map (fun t => if t < d then center else goal)

/-- One iteration of the `TaskDelayedReach.generate` batch loop.  The
guard names exactly the conditions under which the NumPy constructions
succeed: `np.zeros(delay_time)` needs `0 ≤ delay_time`,
`np.zeros(int(n - delay_time - bump_length))` needs the bump to fit the
horizon, and `np.squeeze` keeps the `[n, 2]` position block
2-dimensional only for `2 ≤ n`; otherwise the call raises. -/
def delayedReach_trial (lo hi : ℚ) (bl : ℕ) (bh : ℚ) (center goal : Row)
    (r : ℚ) (n : ℕ) : Except String (Tensor2 × Tensor2) :=
  (generate_delay_time lo hi "random" r).bind fun dI =>
    if 0 ≤ dI ∧ dI.toNat + bl ≤ n ∧ 2 ≤ n then
      .ok (delayedReach_trial_input goal (delayedReach_bump dI.toNat bl bh n),
           delayedReach_trial_target center goal dI.toNat n)
    else .error "ValueError"

/-- `TaskDelayedReach.generate(batch_size, n_timesteps)`.  `initJoints`
is the batch of initial joint states inside the controller state
(modelled from the spec: `init_states` is opaque; its component `[0]`
is the forwarded batch of initial joint states, and the code reads its
row `[0, :]`), so `center = joint2cartesian(init_states[0][0, :])` is
shared by every trial of the batch. -/
def delayedReach_generate (j2c : Row → Row) (lo hi : ℚ) (bl : ℕ) (bh : ℚ)
    (initJoints : Tensor2) (goalDraw : ℕ → Row) (delayDraw : ℕ → ℚ)
    (batch n : ℕ) : Except String (Tensor3 × Tensor3) :=
  let center := j2c (initJoints.getD 0 [])
  (collectE ((List.range batch).map fun i =>
      delayedReach_trial lo hi bl bh center (j2c (goalDraw i)) (delayDraw i) n)).map
    (fun trials => (trials.map Prod.fst, trials.map Prod.snd))

/-!  ## `TaskDelayedMultiReach`  -/

/-- An in-place NumPy slice assignment `a[lo:hi] = v` (constant row `v`
broadcast over the slice), on the functional view `time → row` of a
trial; later writes shadow earlier ones by composition. -/
def writeRange (f : ℕ → Row) (lo hi : ℕ) (v : Row) : ℕ → Row :=
  fun t => if lo ≤ t ∧ t < hi then v else f t

/-- An in-place NumPy slice assignment `a[lo:lo+len(vals)] = vals` of a
block of rows. -/
def writeBlock (f : ℕ → Row) (lo : ℕ) (vals : Tensor2) : ℕ → Row :=
  fun t => if lo ≤ t ∧ t < lo + vals.length then vals.getD (t - lo) [] else f t

/-- One `TaskDelayedMultiReach` trial target as the source builds it:
start from the zero array of `sequence_time` rows, write `center` on
`[0, n)` and on `[n, n + delay_time)`, write the concatenated goal
segments (`segs`, one `n`-row block per goal) at `n + delay_time`, and
finally write the last goal row on `[delay_time + num_target*n,
sequence_time)`. -/
def multiReach_trial_target_fn (center lastG : Row) (segs : Tensor2) (d n seqT : ℕ) :
    ℕ → Row :=
  writeRange
    (writeBlock
      (writeRange (writeRange (fun _ => [0, 0, 0, 0]) 0 n center) n (n + d) center)
      (n + d) segs)
    (d + segs.length) seqT lastG

/-- The `[sequence_time, 4]` target slice of one multi-reach trial. -/
def multiReach_trial_target (center lastG : Row) (segs : Tensor2) (d n seqT : ℕ) :
    Tensor2 :=
  (List.range seqT).map (multiReach_trial_target_fn center lastG segs d n seqT)

/-- The multi-reach cue channel: a full hold phase of `n` zeros, the
delay, the bump, then zeros for the goal phase padded with
`int(delay_max - delay_time) = hmax - d` extra steps. -/
def multiReach_bump (d bl : ℕ) (bh : ℚ) (n num hmax : ℕ) : List ℚ :=
  List.replicate n 0 ++ List.replicate d 0 ++ List.replicate bl bh ++
    List.replicate (num * n + (hmax - d)) 0

/-- `np.repeat` on a 1-D vector: each element repeated `k` times. -/
def npRepeatElems (xs : Row) (k : ℕ) : Row :=
  (xs.map (List.replicate k)).flatten

/-- The input slice of one multi-reach trial.  All rows of the goal
phase equal the concatenation `g` of the goal positions (`target_list`
is constant over time, so both the `tf.repeat` block and the row copied
into the delay phase by `input_tensor[n : n+delay_max+bump] =
input_tensor[n+delay_max+bump+1, :]` are `g`); the first `n` rows hold
`np.repeat(center[0, :2], num_target)`; the bump is appended as the last
channel. -/
def multiReach_trial_inputs (center : Row) (goals : List Row) (d bl : ℕ) (bh : ℚ)
    (n hmax : ℕ) : Tensor2 :=
  let num := goals.length
  let g : Row := (goals.map (fun row => row.take 2)).flatten
  let rows := List.replicate n (npRepeatElems (center.take 2) num) ++
              List.replicate (hmax + bl) g ++ List.replicate (num * n) g
  List.zipWith (fun row b => row ++ [b]) rows (multiReach_bump d bl bh n num hmax)

/-- One iteration of the `TaskDelayedMultiReach.generate` batch loop.
The guard names the conditions under which the NumPy constructions
succeed: a nonnegative sampled delay (`np.zeros(delay_time)`), a delay
at most `int(delay_max)` (so that the goal-segment block write fits and
the bump length matches the input length), at least two rows in the
goal phase (the copied row `input_tensor[n+delay_max+bump+1, :]` must
exist), and `2 ≤ n` (`np.squeeze` keeps `[n, 2]` blocks 2-dimensional);
otherwise the call raises. -/
def multiReach_trial (lo hi : ℚ) (bl : ℕ) (bh : ℚ) (center : Row) (goals : List Row)
    (r : ℚ) (n : ℕ) : Except String (Tensor2 × Tensor2) :=
  (generate_delay_time lo hi "random" r).bind fun dI =>
    if 0 ≤ dI ∧ dI ≤ truncInt hi ∧ 2 ≤ goals.length * n ∧ 2 ≤ n then
      let d := dI.toNat
      let hmax := (truncInt hi).toNat
      let num := goals.length
      let seqT := (num + 1) * n + hmax + bl
      let segs := (goals.map (fun row => List.replicate n row)).flatten
      .ok (multiReach_trial_inputs center goals d bl bh n hmax,
           multiReach_trial_target center (goals.getLastD []) segs d n seqT)
    else .error "ValueError"

/-- `TaskDelayedMultiReach.generate(batch_size, n_timesteps)`: per trial
`num_target` goal states are drawn (`goalDraw i tg`), one delay is
sampled, and the trial input/target slices are built; the sequence
length `int((num_target+1)*n_timesteps + delay_max + bump_length)` is
shared by the whole batch.  `center` is shared exactly as in
`TaskDelayedReach`. -/
def multiReach_generate (j2c : Row → Row) (lo hi : ℚ) (bl : ℕ) (bh : ℚ) (num : ℕ)
    (initJoints : Tensor2) (goalDraw : ℕ → ℕ → Row) (delayDraw : ℕ → ℚ)
    (batch n : ℕ) : Except String (Tensor3 × Tensor3) :=
  let center := j2c (initJoints.getD 0 [])
  (collectE ((List.range batch).map fun i =>
      multiReach_trial lo hi bl bh center
        ((List.range num).map fun tg => j2c (goalDraw i tg)) (delayDraw i) n)).map
    (fun trials => (trials.map Prod.fst, trials.map Prod.snd))

/-!  ## `TaskLoadProbability`  -/

/-- `prob_array = np.array([0, 0.25, 0.5, 0.75, 1])`. -/
def prob_array : List ℚ := [0, 1/4, 1/2, 3/4, 1]

/-- One `TaskLoadProbability` trial, given the trial's drawn delay `d`
(in steps), probability value `prob`, catch draw `c1` and perturbation
draw `c2` (both `np.random.rand()` values in `[0, 1)`).  A trial is a
catch trial when `c1 < 0.2`; otherwise the load channel steps at
`pert_time = d + fixation_time` to `pert = 0` if `c2 ≥ prob` else `-2`.
Channels: 0 = `prob` cue, 1 = its complement (both visible only from
`fixation_time + 1` on), 2 = constant `0`, 3 = background load `-1`
possibly stepping to `pert`.  Targets: `center` before `pert_time` and
the fixed `goal` after (catch trials hold `center` throughout). -/
def loadProb_trial (fixation n : ℕ) (center goal : Row) (d : ℕ) (prob c1 c2 : ℚ) :
    Tensor2 × Tensor2 :=
  let pt := d + fixation
  let pert : ℚ := if prob ≤ c2 then 0 else -2
  let inputs := (List.range n).map fun t =>
    [ if fixation + 1 ≤ t then prob else 0,
      if fixation + 1 ≤ t then 1 - prob else 0,
      0,
      if (1/5 : ℚ) ≤ c1 ∧ pt ≤ t then pert else -1 ]
  let targets := (List.range n).map fun t =>
    if (1/5 : ℚ) ≤ c1 then (if t < pt then center else goal) else center
  (inputs, targets)

/-- `TaskLoadProbability.generate(batch_size, n_timesteps)`: the goal is
the fixed offset `center + [-0.028279, -0.042601, 0, 0]`; each trial
draws a delay via `generate_delay_time(delay_min, delay_max, 'random')`,
a probability index (`np.random.randint(0, 5)`), and the two
`np.random.rand()` values.  (`Int.toNat` on the delay is faithful for
the nonnegative configured bounds, which theorems assume explicitly.) -/
def loadProb_generate (j2c : Row → Row) (lo hi : ℚ) (fixation : ℕ)
    (initJoints : Tensor2) (delayDraw : ℕ → ℚ) (probIdx : ℕ → ℕ)
    (catchDraw pertDraw : ℕ → ℚ) (batch n : ℕ) : Tensor3 × Tensor3 :=
  let center := j2c (initJoints.getD 0 [])
  let goal := List.zipWith (· + ·) center [-28279/1000000, -42601/1000000, 0, 0]
  let trials := (List.range batch).map fun i =>
    loadProb_trial fixation n center goal
      (((generate_delay_time lo hi "random" (delayDraw i)).toOption.getD 0).toNat)
      (prob_array.getD (probIdx i) 0) (catchDraw i) (pertDraw i)
  (trials.map Prod.fst, trials.map Prod.snd)

/-!  ## General list helpers  -/

section ListHelpers

theorem getD_map {α β : Type} (f : α → β) (l : List α) (i : ℕ) (da : α) (db : β)
    (h : i < l.length) : (l.map f).getD i db = f (l.getD i da) := by
  induction l generalizing i with
  | nil => simp at h
  | cons x xs ih =>
    cases i with
    | zero => rfl
    | succ j =>
      simp only [List.map_cons, List.getD_cons_succ]
      exact ih j (by simpa using h)

theorem getD_replicate {α : Type} (a d : α) (m k : ℕ) (h : k < m) :
    (List.replicate m a).getD k d = a := by
  induction m generalizing k with
  | zero => simp at h
  | succ m ih =>
    cases k with
    | zero => rfl
    | succ j =>
      simp only [List.replicate_succ, List.getD_cons_succ]
      exact ih j (by simpa using h)

/-- Anatomy of a successful batch `generate` call built from a per-trial
constructor `f`: the two returned tensors have `batch` trials, and the
`i`-th one is exactly the pair produced by `f i`. -/
theorem generate_ok_trial {f : ℕ → Except String (Tensor2 × Tensor2)} {batch : ℕ}
    {inp tgt : Tensor3}
    (hok : (collectE ((List.range batch).map f)).map
        (fun trials => (trials.map Prod.fst, trials.map Prod.snd)) = .ok (inp, tgt))
    (i : ℕ) (hib : i < batch) :
    inp.length = batch ∧ tgt.length = batch ∧
    f i = .ok ((inp.getD i []), (tgt.getD i [])) := by
  cases hcol : collectE ((List.range batch).map f) with
  | error e => rw [hcol] at hok; simp [Except.map] at hok
  | ok trials =>
    rw [hcol] at hok
    simp only [Except.map, Except.ok.injEq, Prod.mk.injEq] at hok
    obtain ⟨hinp, htgt⟩ := hok
    have hlen : trials.length = batch := by
      have := collectE_ok_length hcol
      simpa using this
    have hib' : i < trials.length := by omega
    have hx := collectE_ok_getD hcol i (([], []) : Tensor2 × Tensor2)
      (by simpa using hib)
    rw [getD_range_map f batch i (.error "") hib] at hx
    have h1 : inp.getD i [] = (trials.getD i ([], [])).1 := by
      rw [← hinp]; exact getD_map Prod.fst trials i ([], []) [] hib'
    have h2 : tgt.getD i [] = (trials.getD i ([], [])).2 := by
      rw [← htgt]; exact getD_map Prod.snd trials i ([], []) [] hib'
    refine ⟨by simp [← hinp, hlen], by simp [← htgt, hlen], ?_⟩
    rw [h1, h2]
    exact hx

end ListHelpers

/-!  ## Claims C7 and C6: timing sampling  -/

/-- Decidable equality for `Except`, for evaluating concrete
generator runs. -/
instance exceptDecEq {ε α : Type} [DecidableEq ε] [DecidableEq α] :
    DecidableEq (Except ε α) := fun a b =>
  match a, b with
  | .ok x, .ok y =>
    if h : x = y then .isTrue (by rw [h])
    else .isFalse (by intro hc; cases hc; exact h rfl)
  | .error e, .error e' =>
    if h : e = e' then .isTrue (by rw [h])
    else .isFalse (by intro hc; cases hc; exact h rfl)
  | .ok _, .error _ => .isFalse (by intro hc; cases hc)
  | .error _, .ok _ => .isFalse (by intro hc; cases hc)

/-- In mode `random` the sampler truncates the uniform draw. -/
theorem generate_delay_time_random (lo hi r : ℚ) :
    generate_delay_time lo hi "random" r = .ok (truncInt r) := rfl

/-- C7: `generate_delay_time` returns `0` for every bounds in mode
`noDelayInput`; in mode `random` it returns the integer truncation of
the real value drawn uniformly from `[delay_min, delay_max)` (the draw
`r` satisfying `delay_min ≤ r < delay_max`); for any other mode value it
raises (`AttributeError`) instead of returning a value. -/
theorem C7_generate_delay_time_spec (lo hi r : ℚ) (mode : String)
    (hm1 : mode ≠ "random") (hm2 : mode ≠ "noDelayInput") :
    generate_delay_time lo hi "noDelayInput" r = .ok 0 ∧
    (lo ≤ r → r < hi → generate_delay_time lo hi "random" r = .ok (truncInt r)) ∧
    generate_delay_time lo hi mode r = .error "AttributeError" := by
  refine ⟨rfl, fun _ _ => rfl, ?_⟩
  simp [generate_delay_time, hm1, hm2]

/-- Closed instantiation of the `generate_delay_time` specification at
bounds `[10, 90)`, draw `10.5`, and the unrecognized mode `uniform`. -/
theorem C7_witness :
    generate_delay_time 10 90 "noDelayInput" (21/2) = .ok 0 ∧
    generate_delay_time 10 90 "random" (21/2) = .ok 10 ∧
    generate_delay_time 10 90 "uniform" (21/2) = .error "AttributeError" := by
  obtain ⟨h1, h2, h3⟩ := C7_generate_delay_time_spec 10 90 (21/2) "uniform"
    (by decide) (by decide)
  refine ⟨h1, ?_, h3⟩
  rw [h2 (by norm_num) (by norm_num), show truncInt (21/2) = 10 by norm_num [truncInt]]

/-- C6 counterexample: with a non-integer lower bound the truncated
delay can fall below `delay_min` — the uniform draw `3/4 ∈ [1/2, 2)`
truncates to `0 < 1/2`, refuting `delay_min ≤ delay_time`. -/
theorem C6_cex :
    ((1:ℚ)/2 ≤ 3/4 ∧ (3:ℚ)/4 < 2) ∧
    generate_delay_time (1/2) 2 "random" (3/4) = .ok 0 ∧
    ¬ ((1:ℚ)/2 ≤ ((0:ℤ) : ℚ)) := by
  refine ⟨by norm_num, ?_, by norm_num⟩
  rw [generate_delay_time_random, show truncInt (3/4) = 0 by norm_num [truncInt]]

/-- C6 (amended): for nonnegative bounds the sampled delay satisfies
`⌊delay_min⌋ ≤ delay_time` and `0 ≤ delay_time ≤ delay_max` (hence
`delay_min ≤ delay_time` whenever `delay_min` is an integer number of
steps, as with the default configurations); and
`delay_time + bump_length` is at most the sequence length for every
trial the delayed-reach generators actually produce (`n_timesteps` for
`TaskDelayedReach`, the extended length for `TaskDelayedMultiReach`). -/
theorem C6_delay_bounds (lo hi r : ℚ) (d : ℤ)
    (h0 : 0 ≤ lo) (h1 : lo ≤ r) (h2 : r < hi)
    (hd : generate_delay_time lo hi "random" r = .ok d) :
    (⌊lo⌋ ≤ d ∧ 0 ≤ d ∧ (d : ℚ) ≤ hi) ∧
    ((⌊lo⌋ : ℚ) = lo → lo ≤ (d : ℚ)) ∧
    (∀ (bl : ℕ) (bh : ℚ) (center goal : Row) (n : ℕ) (out : Tensor2 × Tensor2),
      delayedReach_trial lo hi bl bh center goal r n = .ok out →
        d.toNat + bl ≤ n) ∧
    (∀ (bl : ℕ) (bh : ℚ) (center : Row) (goals : List Row) (n : ℕ)
        (out : Tensor2 × Tensor2),
      multiReach_trial lo hi bl bh center goals r n = .ok out →
        d.toNat + bl ≤ (goals.length + 1) * n + (truncInt hi).toNat + bl) := by
  have hr0 : (0:ℚ) ≤ r := le_trans h0 h1
  rw [generate_delay_time_random] at hd
  have hdr : d = truncInt r := by
    cases hd
    rfl
  have htr : truncInt r = ⌊r⌋ := by simp [truncInt, hr0]
  have hfl : 0 ≤ ⌊r⌋ := Int.floor_nonneg.mpr hr0
  have hdf : d = ⌊r⌋ := by rw [hdr, htr]
  refine ⟨⟨?_, ?_, ?_⟩, ?_, ?_, ?_⟩
  · rw [hdf]; exact Int.floor_le_floor h1
  · rw [hdf]; exact hfl
  · rw [hdf]
    calc ((⌊r⌋ : ℤ) : ℚ) ≤ r := Int.floor_le r
    _ ≤ hi := le_of_lt h2
  · intro hint
    rw [hdf, ← hint]
    exact_mod_cast Int.floor_le_floor h1
  · intro bl bh center goal n out hok
    simp only [delayedReach_trial, generate_delay_time_random, Except.bind] at hok
    split at hok
    · next hcond => rw [← hdr] at hcond; exact hcond.2.1
    · exact absurd hok (by simp)
  · intro bl bh center goals n out hok
    simp only [multiReach_trial, generate_delay_time_random, Except.bind] at hok
    split at hok
    · next hcond =>
        rw [← hdr] at hcond
        have hle : d.toNat ≤ (truncInt hi).toNat := Int.toNat_le_toNat hcond.2.1
        omega
    · exact absurd hok (by simp)

unseal Rat.add Rat.mul Rat.sub Rat.inv in
/-- Closed instantiation of the delay bounds at `[10, 90)`, draw `10.5`,
with a delayed-reach trial actually produced at `n_timesteps = 12`,
`bump_length = 1`. -/
theorem C6_witness :
    (⌊(10:ℚ)⌋ ≤ (10:ℤ) ∧ (0:ℤ) ≤ (10:ℤ) ∧ (((10:ℤ)) : ℚ) ≤ 90) ∧
    ((10:ℤ).toNat + 1 ≤ 12) := by
  have hd : generate_delay_time 10 90 "random" (21/2) = .ok 10 := by
    rw [generate_delay_time_random, show truncInt (21/2) = 10 by norm_num [truncInt]]
  have h := C6_delay_bounds 10 90 (21/2) 10 (by norm_num) (by norm_num) (by norm_num) hd
  refine ⟨h.1, ?_⟩
  exact h.2.2.1 1 1 [0,0,0,0] [5,5,0,0] 12
    ((delayedReach_trial 10 90 1 1 [0,0,0,0] [5,5,0,0] (21/2) 12).toOption.getD ([], []))
    (by decide)

/-!  ## Claims C1, C8, C9: target recomputation  -/

/-- Row-level specification of the `TaskDelayedReach` recomputation
cell: within tolerance the position is replaced by the achieved
position; beyond tolerance the position is kept; the velocity channels
are zeroed in both cases. -/
theorem delayedReach_recompute_row_spec (c t : Row) :
    (distSq c t ≤ (1/10) ^ 2 →
      delayedReach_recompute_row c t = [c.getD 0 0, c.getD 1 0, 0, 0]) ∧
    (¬ distSq c t ≤ (1/10) ^ 2 →
      delayedReach_recompute_row c t = [t.getD 0 0, t.getD 1 0, 0, 0]) := by
  constructor
  · intro h
    simp only [delayedReach_recompute_row, if_pos h]
    norm_num
  · intro h
    simp only [delayedReach_recompute_row, if_neg h]
    norm_num

/-- Row-level specification of the `TaskLoadProbability` recomputation
cell: the position is replaced exactly when the timestep is unflagged
and within tolerance; otherwise it is kept; the velocity channels are
zeroed in both cases. -/
theorem loadProb_recompute_row_spec (mark : ℚ) (c t : Row) :
    ((mark ≠ -1 ∧ distSq c t ≤ (7/200) ^ 2) →
      loadProb_recompute_row mark c t = [c.getD 0 0, c.getD 1 0, 0, 0]) ∧
    (¬ (mark ≠ -1 ∧ distSq c t ≤ (7/200) ^ 2) →
      loadProb_recompute_row mark c t = [t.getD 0 0, t.getD 1 0, 0, 0]) := by
  by_cases hm : mark = -1
  · have hs : ¬ ((1000:ℚ) ^ 2 ≤ (7/200) ^ 2) := by norm_num
    constructor
    · intro h
      exact absurd hm h.1
    · intro h
      simp only [loadProb_recompute_row, hm, if_pos rfl, if_neg hs]
      norm_num
  · constructor
    · intro h
      simp only [loadProb_recompute_row, if_neg hm, if_pos h.2]
      norm_num
    · intro h
      have hd : ¬ distSq c t ≤ (7/200) ^ 2 := fun hc => h ⟨hm, hc⟩
      simp only [loadProb_recompute_row, if_neg hm, if_neg hd]
      norm_num

unseal Rat.add Rat.mul Rat.sub Rat.inv in
/-- C1 counterexample: at a (trial, timestep) whose distance exceeds the
tolerance the target is not left unchanged — the velocity channels are
zeroed unconditionally (the tiled distance tensor is `0 ≤ 0.1` there),
so a target row with nonzero velocity still changes. -/
theorem C1_cex :
    ¬ (distSq [10, 10, 0, 0] [0, 0, 5, 5] ≤ (1/10) ^ 2) ∧
    recompute_targets_delayed [[[10, 10, 0, 0]]] [[[0, 0, 5, 5]]] = [[[0, 0, 0, 0]]] ∧
    recompute_targets_delayed [[[10, 10, 0, 0]]] [[[0, 0, 5, 5]]] ≠ [[[0, 0, 5, 5]]] := by
  decide

/-- C1 (amended): for both recompute-capable generators and every
(trial, timestep), where the distance between the achieved position and
the assigned target position is at or below the tolerance (`0.1` for
`TaskDelayedReach`; `0.035` for `TaskLoadProbability`, which
additionally requires the timestep to be unflagged by the `-1` marker),
the position component of the recomputed target equals the achieved
position and the velocity component is zero; at every other
(trial, timestep) the position component is left unchanged while the
velocity component is still zeroed. -/
theorem C1_recompute_spec (inputs : List Tensor3) (outputs targets : Tensor3) (i t : ℕ)
    (hio : i < outputs.length) (hit : i < targets.length)
    (hto : t < (outputs.getD i []).length) (htt : t < (targets.getD i []).length)
    (hii : i < (inputs.getD 0 []).length)
    (hti : t < ((inputs.getD 0 []).getD i []).length) :
    (distSq ((outputs.getD i []).getD t []) ((targets.getD i []).getD t []) ≤ (1/10) ^ 2 →
      ((recompute_targets_delayed outputs targets).getD i []).getD t [] =
        [((outputs.getD i []).getD t []).getD 0 0,
         ((outputs.getD i []).getD t []).getD 1 0, 0, 0]) ∧
    (¬ distSq ((outputs.getD i []).getD t []) ((targets.getD i []).getD t []) ≤ (1/10) ^ 2 →
      ((recompute_targets_delayed outputs targets).getD i []).getD t [] =
        [((targets.getD i []).getD t []).getD 0 0,
         ((targets.getD i []).getD t []).getD 1 0, 0, 0]) ∧
    ((((inputs.getD 0 []).getD i []).getD t []).getD 3 0 ≠ -1 ∧
        distSq ((outputs.getD i []).getD t []) ((targets.getD i []).getD t [])
          ≤ (7/200) ^ 2 →
      ((recompute_targets_loadProb inputs outputs targets).getD i []).getD t [] =
        [((outputs.getD i []).getD t []).getD 0 0,
         ((outputs.getD i []).getD t []).getD 1 0, 0, 0]) ∧
    (¬ ((((inputs.getD 0 []).getD i []).getD t []).getD 3 0 ≠ -1 ∧
        distSq ((outputs.getD i []).getD t []) ((targets.getD i []).getD t [])
          ≤ (7/200) ^ 2) →
      ((recompute_targets_loadProb inputs outputs targets).getD i []).getD t [] =
        [((targets.getD i []).getD t []).getD 0 0,
         ((targets.getD i []).getD t []).getD 1 0, 0, 0]) := by
  have hD : ((recompute_targets_delayed outputs targets).getD i []).getD t [] =
      delayedReach_recompute_row ((outputs.getD i []).getD t [])
        ((targets.getD i []).getD t []) := by
    simp only [recompute_targets_delayed]
    rw [getD_zipWith _ outputs targets i [] [] [] hio hit]
    exact getD_zipWith _ _ _ t [] [] [] hto htt
  have hL : ((recompute_targets_loadProb inputs outputs targets).getD i []).getD t [] =
      loadProb_recompute_row ((((inputs.getD 0 []).getD i []).getD t []).getD 3 0)
        ((outputs.getD i []).getD t []) ((targets.getD i []).getD t []) := by
    simp only [recompute_targets_loadProb]
    rw [getD_zipWith3 _ _ _ _ i [] [] [] [] hii hio hit]
    exact getD_zipWith3 _ _ _ _ t [] [] [] [] hti hto htt
  refine ⟨fun h => ?_, fun h => ?_, fun h => ?_, fun h => ?_⟩
  · rw [hD]; exact (delayedReach_recompute_row_spec _ _).1 h
  · rw [hD]; exact (delayedReach_recompute_row_spec _ _).2 h
  · rw [hL]; exact (loadProb_recompute_row_spec _ _ _).1 h
  · rw [hL]; exact (loadProb_recompute_row_spec _ _ _).2 h

unseal Rat.add Rat.mul Rat.sub Rat.inv in
/-- Closed instantiation of the recomputation rule on a within-tolerance
cell (distance `0`) with an unflagged marker (`5`): both generators lock
the position onto the achieved state and zero the velocity. -/
theorem C1_witness :
    ((recompute_targets_delayed [[[1, 1, 9, 9]]] [[[1, 1, 2, 2]]]).getD 0 []).getD 0 []
      = [1, 1, 0, 0] ∧
    ((recompute_targets_loadProb [[[[0, 0, 0, 5]]]] [[[1, 1, 9, 9]]]
        [[[1, 1, 2, 2]]]).getD 0 []).getD 0 [] = [1, 1, 0, 0] := by
  obtain ⟨h1, -, h3, -⟩ := C1_recompute_spec [[[[0, 0, 0, 5]]]] [[[1, 1, 9, 9]]]
    [[[1, 1, 2, 2]]] 0 0 (by decide) (by decide) (by decide) (by decide) (by decide)
    (by decide)
  constructor
  · have := h1 (by decide)
    simpa using this
  · have := h3 (by decide)
    simpa using this

unseal Rat.add Rat.mul Rat.sub Rat.inv in
/-- C8 counterexample: at a timestep flagged by the marker channel the
target is not left entirely unchanged — the position components are kept
(even though the true distance, `0` here, is within tolerance) but the
velocity components are still zeroed. -/
theorem C8_cex :
    distSq [5, 5, 0, 0] [5, 5, 3, 3] ≤ (7/200) ^ 2 ∧
    recompute_targets_loadProb [[[[0, 0, 0, -1]]]] [[[5, 5, 0, 0]]] [[[5, 5, 3, 3]]]
      = [[[5, 5, 0, 0]]] ∧
    recompute_targets_loadProb [[[[0, 0, 0, -1]]]] [[[5, 5, 0, 0]]] [[[5, 5, 3, 3]]]
      ≠ [[[5, 5, 3, 3]]] := by
  decide

/-- C8 (amended): at every (trial, timestep) flagged by the marker
channel (`inputs[0][:, :, 3] = -1`) the distance is forced to the
sentinel `1000`, which exceeds the tolerance `0.035`, so position
recomputation never fires there: the position component of the target is
kept for every rollout output (the velocity component is still zeroed,
as everywhere).  In particular catch trials — whose load channel holds
`-1` at every timestep — are flagged throughout. -/
theorem C8_flagged_spec (inputs : List Tensor3) (outputs targets : Tensor3) (i t : ℕ)
    (hio : i < outputs.length) (hit : i < targets.length)
    (hto : t < (outputs.getD i []).length) (htt : t < (targets.getD i []).length)
    (hii : i < (inputs.getD 0 []).length)
    (hti : t < ((inputs.getD 0 []).getD i []).length)
    (hm : (((inputs.getD 0 []).getD i []).getD t []).getD 3 0 = -1) :
    ¬ ((1000:ℚ) ^ 2 ≤ (7/200) ^ 2) ∧
    ((recompute_targets_loadProb inputs outputs targets).getD i []).getD t [] =
      [((targets.getD i []).getD t []).getD 0 0,
       ((targets.getD i []).getD t []).getD 1 0, 0, 0] ∧
    (∀ (fixation n : ℕ) (center goal : Row) (d : ℕ) (prob c1 c2 : ℚ),
      c1 < 1/5 → ∀ s, s < n →
        (((loadProb_trial fixation n center goal d prob c1 c2).1).getD s []).getD 3 0
          = -1) := by
  refine ⟨by norm_num, ?_, ?_⟩
  · have hL : ((recompute_targets_loadProb inputs outputs targets).getD i []).getD t [] =
        loadProb_recompute_row ((((inputs.getD 0 []).getD i []).getD t []).getD 3 0)
          ((outputs.getD i []).getD t []) ((targets.getD i []).getD t []) := by
      simp only [recompute_targets_loadProb]
      rw [getD_zipWith3 _ _ _ _ i [] [] [] [] hii hio hit]
      exact getD_zipWith3 _ _ _ _ t [] [] [] [] hti hto htt
    rw [hL]
    exact (loadProb_recompute_row_spec _ _ _).2 (fun hc => hc.1 hm)
  · intro fixation n center goal d prob c1 c2 hc1 s hs
    have hcatch : ¬ ((1/5 : ℚ) ≤ c1) := not_le.mpr hc1
    have h1 : (loadProb_trial fixation n center goal d prob c1 c2).1 =
        (List.range n).map (fun u =>
          [ if fixation + 1 ≤ u then prob else 0,
            if fixation + 1 ≤ u then 1 - prob else 0,
            0,
            if (1/5 : ℚ) ≤ c1 ∧ d + fixation ≤ u then (if prob ≤ c2 then (0:ℚ) else -2)
            else -1 ]) := rfl
    rw [h1, getD_range_map _ n s [] hs]
    simp only [List.getD_cons_succ, List.getD_cons_zero]
    rw [if_neg (fun hc => hcatch hc.1)]

unseal Rat.add Rat.mul Rat.sub Rat.inv in
/-- Closed instantiation of the flagged-timestep rule: marker `-1`,
achieved position at distance `0` from the target, yet the position is
kept (and the velocity zeroed); and the load channel of a concrete catch
trial is `-1` at a sample timestep. -/
theorem C8_witness :
    ((recompute_targets_loadProb [[[[0, 0, 0, -1]]]] [[[7, 7, 0, 0]]]
        [[[7, 7, 4, 4]]]).getD 0 []).getD 0 [] = [7, 7, 0, 0] ∧
    (((loadProb_trial 1 5 [0, 0, 0, 0] [1, 1, 0, 0] 2 (1/2) (1/10) (1/2)).1).getD 3 []).getD 3 0
      = -1 := by
  obtain ⟨-, h2, h3⟩ := C8_flagged_spec [[[[0, 0, 0, -1]]]] [[[7, 7, 0, 0]]]
    [[[7, 7, 4, 4]]] 0 0 (by decide) (by decide) (by decide) (by decide) (by decide)
    (by decide) (by decide)
  constructor
  · simpa using h2
  · exact h3 1 5 [0, 0, 0, 0] [1, 1, 0, 0] 2 (1/2) (1/10) (1/2) (by norm_num) 3
      (by decide)

/-- A `zipWith` whose function is idempotent in its second argument is
idempotent as a whole. -/
theorem zipWith_right_idem {α β : Type} (f : α → β → β)
    (hf : ∀ a b, f a (f a b) = f a b) (a : List α) (b : List β) :
    List.zipWith f a (List.zipWith f a b) = List.zipWith f a b := by
  induction a generalizing b with
  | nil => simp
  | cons x xs ih =>
    cases b with
    | nil => simp
    | cons y ys =>
      simp only [List.zipWith_cons_cons]
      rw [hf, ih]

/-- A `zipWith3` whose function is idempotent in its third argument is
idempotent as a whole. -/
theorem zipWith3_right_idem {α β γ : Type} (f : α → β → γ → γ)
    (hf : ∀ a b c, f a b (f a b c) = f a b c) (a : List α) (b : List β) (c : List γ) :
    zipWith3 f a b (zipWith3 f a b c) = zipWith3 f a b c := by
  induction a generalizing b c with
  | nil => simp [zipWith3]
  | cons x xs ih =>
    cases b with
    | nil => simp [zipWith3]
    | cons y ys =>
      cases c with
      | nil => simp [zipWith3]
      | cons z zs =>
        simp only [zipWith3]
        rw [hf, ih]

/-- One recomputation cell of `TaskDelayedReach` is idempotent: a
position already locked to the achieved state is at distance `0` and
stays locked; an unlocked position keeps its distance and stays
unlocked. -/
theorem delayedReach_row_idem (c t : Row) :
    delayedReach_recompute_row c (delayedReach_recompute_row c t) =
      delayedReach_recompute_row c t := by
  by_cases h : distSq c t ≤ (1/10) ^ 2
  · rw [(delayedReach_recompute_row_spec c t).1 h]
    have h0 : distSq c [c.getD 0 0, c.getD 1 0, 0, 0] ≤ (1/10) ^ 2 := by
      simp only [distSq, List.getD_cons_zero, List.getD_cons_succ]
      norm_num
    rw [(delayedReach_recompute_row_spec c _).1 h0]
  · rw [(delayedReach_recompute_row_spec c t).2 h]
    have hEq : distSq c [t.getD 0 0, t.getD 1 0, 0, 0] = distSq c t := by
      simp [distSq]
    have h1 : ¬ distSq c [t.getD 0 0, t.getD 1 0, 0, 0] ≤ (1/10) ^ 2 := by
      rw [hEq]; exact h
    rw [(delayedReach_recompute_row_spec c _).2 h1]
    simp

/-- One recomputation cell of `TaskLoadProbability` is idempotent (the
marker is read from the unchanged `inputs`, so it is the same on both
applications). -/
theorem loadProb_row_idem (mark : ℚ) (c t : Row) :
    loadProb_recompute_row mark c (loadProb_recompute_row mark c t) =
      loadProb_recompute_row mark c t := by
  by_cases hm : mark = -1
  · rw [(loadProb_recompute_row_spec mark c t).2 (fun hc => hc.1 hm)]
    rw [(loadProb_recompute_row_spec mark c _).2 (fun hc => hc.1 hm)]
    simp
  · by_cases h : distSq c t ≤ (7/200) ^ 2
    · rw [(loadProb_recompute_row_spec mark c t).1 ⟨hm, h⟩]
      have h0 : distSq c [c.getD 0 0, c.getD 1 0, 0, 0] ≤ (7/200) ^ 2 := by
        simp only [distSq, List.getD_cons_zero, List.getD_cons_succ]
        norm_num
      rw [(loadProb_recompute_row_spec mark c _).1 ⟨hm, h0⟩]
    · rw [(loadProb_recompute_row_spec mark c t).2 (fun hc => h hc.2)]
      have hEq : distSq c [t.getD 0 0, t.getD 1 0, 0, 0] = distSq c t := by
        simp [distSq]
      rw [(loadProb_recompute_row_spec mark c _).2 (fun hc => h (hEq ▸ hc.2))]
      simp

/-- C9: for every inputs, targets and rollout outputs, applying
`recompute_targets` a second time with the same inputs and outputs to
the result of a first application returns the first application's result
exactly, for both recompute-capable generators: positions already locked
to the achieved state are at distance `0` and stay locked, unlocked
positions keep their distance and stay unlocked, and flagged timesteps
stay flagged since `inputs` is unchanged. -/
theorem C9_recompute_idempotent (inputs : List Tensor3) (outputs targets : Tensor3) :
    recompute_targets_delayed outputs (recompute_targets_delayed outputs targets) =
      recompute_targets_delayed outputs targets ∧
    recompute_targets_loadProb inputs outputs
        (recompute_targets_loadProb inputs outputs targets) =
      recompute_targets_loadProb inputs outputs targets := by
  constructor
  · exact zipWith_right_idem _
      (fun ct tt => zipWith_right_idem _ delayedReach_row_idem ct tt) outputs targets
  · exact zipWith3_right_idem _
      (fun itr ctr ttr => zipWith3_right_idem _
        (fun irow crow trow => loadProb_row_idem (irow.getD 3 0) crow trow) itr ctr ttr)
      (inputs.getD 0 []) outputs targets

/-!  ## Claim C10: one-dimensional initial-joint-state pool  -/

/-- C10: a 1-D `initial_joint_state` vector is reshaped into a pool of
exactly one state, and for every batch size and every index stream the
RNG can produce (`np.random.randint(0, 1, batch_size)` yields indices
`< 1`), `get_initial_state` forwards to the controller a batch in which
every one of the `batch_size` rows equals the supplied vector. -/
theorem C10_single_state_pool {σ : Type} (ctrl : ℕ → Option Tensor2 → σ) (v : Row)
    (idx : ℕ → ℕ) (batch : ℕ) (hidx : ∀ k, idx k < 1) :
    task_initial_pool (some (.vec1d v)) = some [v] ∧
    task_get_initial_state ctrl (task_initial_pool (some (.vec1d v))) idx batch =
      ctrl batch (some (List.replicate batch v)) := by
  refine ⟨rfl, ?_⟩
  show ctrl batch (some ((List.range batch).map fun k => ([v] : Tensor2).getD (idx k) []))
    = ctrl batch (some (List.replicate batch v))
  have hrow : ∀ k, ([v] : Tensor2).getD (idx k) [] = v := by
    intro k
    have h0 : idx k = 0 := Nat.lt_one_iff.mp (hidx k)
    rw [h0]
    rfl
  have hmap : (List.range batch).map (fun k => ([v] : Tensor2).getD (idx k) []) =
      (List.range batch).map (fun _ => v) :=
    List.map_congr_left (fun k _ => hrow k)
  rw [hmap]
  congr 1
  rw [Option.some_inj, List.eq_replicate_iff]
  simp

/-- Closed instantiation: pool `[[1, 2]]`, three trials, constant zero
index stream; the controller receives three copies of the vector. -/
theorem C10_witness :
    task_get_initial_state (fun b inp => (b, inp)) (task_initial_pool (some (.vec1d [1, 2])))
      (fun _ => 0) 3 = (3, some [[1, 2], [1, 2], [1, 2]]) := by
  rw [(C10_single_state_pool (fun b inp => (b, inp)) [1, 2] (fun _ => 0) 3
    (fun k => Nat.one_pos)).2]
  rfl

/-!  ## Claim C5: load-probability perturbation draw  -/

unseal Rat.add Rat.mul Rat.sub Rat.inv in
/-- C5 counterexample: a non-catch trial drawing probability `1`
receives the stepped perturbation `pert = -2` (not `0`) — here with
catch draw `1/2 ≥ 0.2` and perturbation draw `1/2`, the load channel at
a post-`pert_time` timestep is `-2`, refuting `pert == 0 for every RNG
outcome`. -/
theorem C5_cex :
    prob_array.getD 4 0 = 1 ∧
    ((1:ℚ)/5 ≤ 1/2) ∧
    ((((loadProb_generate id 1 2 1 [[0, 0, 0, 0]] (fun _ => 3/2) (fun _ => 4)
        (fun _ => 1/2) (fun _ => 1/2) 1 5).1.getD 0 []).getD 2 []).getD 3 0 = -2) ∧
    ((-2:ℚ) ≠ 0) := by
  decide

/-- The input slice of trial `i` of a `TaskLoadProbability` batch is the
slice built by the per-trial constructor at that trial's draws. -/
theorem loadProb_generate_inputs_getD (j2c : Row → Row) (lo hi : ℚ) (fixation : ℕ)
    (initJoints : Tensor2) (delayDraw : ℕ → ℚ) (probIdx : ℕ → ℕ)
    (catchDraw pertDraw : ℕ → ℚ) (batch n i : ℕ) (hib : i < batch) :
    (loadProb_generate j2c lo hi fixation initJoints delayDraw probIdx catchDraw
        pertDraw batch n).1.getD i []
      = (loadProb_trial fixation n (j2c (initJoints.getD 0 []))
          (List.zipWith (· + ·) (j2c (initJoints.getD 0 []))
            [-28279/1000000, -42601/1000000, 0, 0])
          (((generate_delay_time lo hi "random" (delayDraw i)).toOption.getD 0).toNat)
          (prob_array.getD (probIdx i) 0) (catchDraw i) (pertDraw i)).1 := by
  have h1 : (loadProb_generate j2c lo hi fixation initJoints delayDraw probIdx catchDraw
      pertDraw batch n).1 =
      ((List.range batch).map fun i =>
        (loadProb_trial fixation n (j2c (initJoints.getD 0 []))
          (List.zipWith (· + ·) (j2c (initJoints.getD 0 []))
            [-28279/1000000, -42601/1000000, 0, 0])
          (((generate_delay_time lo hi "random" (delayDraw i)).toOption.getD 0).toNat)
          (prob_array.getD (probIdx i) 0) (catchDraw i) (pertDraw i)).1) := by
    show (((List.range batch).map _).map Prod.fst) = _
    rw [List.map_map]
    rfl
  rw [h1]
  exact getD_range_map _ batch i [] hib

/-- The load channel of a non-catch trial from `pert_time` on holds the
drawn perturbation `pert`. -/
theorem loadProb_trial_pert_channel (fixation n : ℕ) (center goal : Row) (d : ℕ)
    (prob c1 c2 : ℚ) (hc1 : 1/5 ≤ c1) (t : ℕ) (htn : t < n) (hpt : d + fixation ≤ t) :
    (((loadProb_trial fixation n center goal d prob c1 c2).1).getD t []).getD 3 0 =
      if prob ≤ c2 then 0 else -2 := by
  have h1 : (loadProb_trial fixation n center goal d prob c1 c2).1 =
      (List.range n).map (fun u =>
        [ if fixation + 1 ≤ u then prob else 0,
          if fixation + 1 ≤ u then 1 - prob else 0,
          0,
          if (1/5 : ℚ) ≤ c1 ∧ d + fixation ≤ u then (if prob ≤ c2 then (0:ℚ) else -2)
          else -1 ]) := rfl
  rw [h1, getD_range_map _ n t [] htn]
  simp only [List.getD_cons_succ, List.getD_cons_zero]
  rw [if_pos ⟨hc1, hpt⟩]

/-- C5 (amended): in every non-catch trial of
`TaskLoadProbability.generate`, a trial whose drawn probability value
equals `1` receives the stepped perturbation with certainty
(`pert = -2`, never `0`, for every rand draw in `[0, 1)`), and a trial
whose drawn probability value equals `0` keeps `pert = 0` with
certainty: the drawn probability is the probability of the load
stepping to `-2`. -/
theorem C5_pert_probability (j2c : Row → Row) (lo hi : ℚ) (fixation : ℕ)
    (initJoints : Tensor2) (delayDraw : ℕ → ℚ) (probIdx : ℕ → ℕ)
    (catchDraw pertDraw : ℕ → ℚ) (batch n i t : ℕ)
    (hib : i < batch) (htn : t < n)
    (hpt : ((generate_delay_time lo hi "random" (delayDraw i)).toOption.getD 0).toNat
        + fixation ≤ t)
    (hcatch : 1/5 ≤ catchDraw i)
    (hc2a : 0 ≤ pertDraw i) (hc2b : pertDraw i < 1) :
    (probIdx i = 4 →
      ((((loadProb_generate j2c lo hi fixation initJoints delayDraw probIdx catchDraw
          pertDraw batch n).1.getD i []).getD t []).getD 3 0) = -2) ∧
    (probIdx i = 0 →
      ((((loadProb_generate j2c lo hi fixation initJoints delayDraw probIdx catchDraw
          pertDraw batch n).1.getD i []).getD t []).getD 3 0) = 0) := by
  rw [loadProb_generate_inputs_getD j2c lo hi fixation initJoints delayDraw probIdx
    catchDraw pertDraw batch n i hib]
  rw [loadProb_trial_pert_channel _ n _ _ _ _ _ _ hcatch t htn hpt]
  constructor
  · intro h4
    rw [h4]
    have hprob : prob_array.getD 4 0 = 1 := rfl
    rw [hprob, if_neg (not_le.mpr hc2b)]
  · intro h0
    rw [h0]
    have hprob : prob_array.getD 0 0 = 0 := rfl
    rw [hprob, if_pos hc2a]

unseal Rat.add Rat.mul Rat.sub Rat.inv in
/-- Closed instantiation of the perturbation rule: probability index 4
(probability `1`), non-catch draw `1/2`, perturbation draw `1/2`; the
load channel two steps past `pert_time` is `-2`. -/
theorem C5_witness :
    ((((loadProb_generate id 1 2 1 [[0, 0, 0, 0]] (fun _ => 3/2) (fun _ => 4)
        (fun _ => 1/2) (fun _ => 1/2) 1 5).1.getD 0 []).getD 4 []).getD 3 0 = (-2:ℚ)) := by
  exact (C5_pert_probability id 1 2 1 [[0, 0, 0, 0]] (fun _ => 3/2) (fun _ => 4)
    (fun _ => 1/2) (fun _ => 1/2) 1 5 0 4 (by decide) (by decide) (by decide)
    (by decide) (by decide) (by decide)).1 rfl

/-!  ## Claim C3: `TaskDelayedReach` per-trial timeline  -/

/-- Inverting a successful delayed-reach trial construction. -/
theorem delayedReach_trial_ok (lo hi : ℚ) (bl : ℕ) (bh : ℚ) (center goal : Row)
    (r : ℚ) (n : ℕ) (out : Tensor2 × Tensor2)
    (hok : delayedReach_trial lo hi bl bh center goal r n = .ok out) :
    0 ≤ truncInt r ∧ (truncInt r).toNat + bl ≤ n ∧ 2 ≤ n ∧
    out = (delayedReach_trial_input goal (delayedReach_bump (truncInt r).toNat bl bh n),
           delayedReach_trial_target center goal (truncInt r).toNat n) := by
  simp only [delayedReach_trial, generate_delay_time_random, Except.bind] at hok
  split at hok
  · next hcond => exact ⟨hcond.1, hcond.2.1, hcond.2.2, (Except.ok.inj hok).symm⟩
  · exact absurd hok (by simp)

/-- Length of the delayed-reach cue vector. -/
theorem delayedReach_bump_length (d bl : ℕ) (bh : ℚ) (n : ℕ) (h : d + bl ≤ n) :
    (delayedReach_bump d bl bh n).length = n := by
  simp only [delayedReach_bump, List.length_append, List.length_replicate]
  omega

/-- The delayed-reach cue vector is `0` before the delay, `bump_height`
for exactly `bump_length` steps, then `0` again. -/
theorem delayedReach_bump_getD (d bl : ℕ) (bh : ℚ) (n t : ℕ) (h : d + bl ≤ n)
    (ht : t < n) :
    (delayedReach_bump d bl bh n).getD t 0 =
      if t < d then 0 else if t < d + bl then bh else 0 := by
  unfold delayedReach_bump
  have la : (List.replicate d (0:ℚ)).length = d := List.length_replicate d 0
  have lab : (List.replicate d (0:ℚ) ++ List.replicate bl bh).length = d + bl := by
    simp
  by_cases h1 : t < d
  · rw [List.getD_append _ _ _ _ (by omega), List.getD_append _ _ _ _ (by omega),
      getD_replicate _ _ _ _ h1, if_pos h1]
  · by_cases h2 : t < d + bl
    · rw [List.getD_append _ _ _ _ (by omega),
        List.getD_append_right _ _ _ _ (by omega), la,
        getD_replicate _ _ _ _ (by omega), if_neg h1, if_pos h2]
    · rw [List.getD_append_right _ _ _ _ (by omega), lab,
        getD_replicate _ _ _ _ (by omega), if_neg h1, if_neg h2]

/-- C3 (amended): for every trial `i` of a successful
`TaskDelayedReach.generate` call, the cue channel (channel 2 of the
input) is `0` before the trial's sampled `delay_time`, `bump_height` for
exactly `bump_length` consecutive steps starting at `delay_time`, and
`0` afterwards; and the supervised target equals the batch-shared center
state — the cartesian projection of the first trial's initial joint
state, `joint2cartesian(init_states[0][0, :])` — on `[0, delay_time)`,
and the trial's drawn goal state from `delay_time` onward. -/
theorem C3_delayed_trial_timeline (j2c : Row → Row) (lo hi : ℚ) (bl : ℕ) (bh : ℚ)
    (initJoints : Tensor2) (goalDraw : ℕ → Row) (delayDraw : ℕ → ℚ)
    (batch n i t : ℕ) (inp tgt : Tensor3)
    (hok : delayedReach_generate j2c lo hi bl bh initJoints goalDraw delayDraw batch n
        = .ok (inp, tgt))
    (hib : i < batch) (htn : t < n) (hglen : 2 ≤ (j2c (goalDraw i)).length) :
    (((inp.getD i []).getD t []).getD 2 0 =
      if t < (truncInt (delayDraw i)).toNat then 0
      else if t < (truncInt (delayDraw i)).toNat + bl then bh else 0) ∧
    ((tgt.getD i []).getD t [] =
      if t < (truncInt (delayDraw i)).toNat then j2c (initJoints.getD 0 [])
      else j2c (goalDraw i)) := by
  have h := @generate_ok_trial (fun k => delayedReach_trial lo hi bl bh
    (j2c (initJoints.getD 0 [])) (j2c (goalDraw k)) (delayDraw k) n)
    batch inp tgt hok i hib
  obtain ⟨hd0, hdbl, hn2, hpair⟩ := delayedReach_trial_ok lo hi bl bh _ _ _ n _ h.2.2
  have hinp : inp.getD i [] = delayedReach_trial_input (j2c (goalDraw i))
      (delayedReach_bump (truncInt (delayDraw i)).toNat bl bh n) :=
    congrArg Prod.fst hpair
  have htgt : tgt.getD i [] = delayedReach_trial_target (j2c (initJoints.getD 0 []))
      (j2c (goalDraw i)) (truncInt (delayDraw i)).toNat n :=
    congrArg Prod.snd hpair
  constructor
  · rw [hinp]
    have hblen : (delayedReach_bump (truncInt (delayDraw i)).toNat bl bh n).length = n :=
      delayedReach_bump_length _ bl bh n hdbl
    have hrow : (delayedReach_trial_input (j2c (goalDraw i))
        (delayedReach_bump (truncInt (delayDraw i)).toNat bl bh n)).getD t [] =
        (j2c (goalDraw i)).take 2 ++
          [(delayedReach_bump (truncInt (delayDraw i)).toNat bl bh n).getD t 0] := by
      unfold delayedReach_trial_input
      exact getD_map _ _ t 0 [] (by rw [hblen]; exact htn)
    rw [hrow]
    rw [List.getD_append_right _ _ _ _ (by simp only [List.length_take]; omega)]
    simp only [List.length_take]
    have hidx : 2 - min 2 (j2c (goalDraw i)).length = 0 := by omega
    rw [hidx, List.getD_cons_zero]
    exact delayedReach_bump_getD _ bl bh n t hdbl htn
  · rw [htgt]
    unfold delayedReach_trial_target
    rw [getD_range_map _ n t [] htn]

unseal Rat.add Rat.mul Rat.sub Rat.inv in
/-- C3 counterexample: `center` is computed once from
`init_states[0][0, :]` — the first trial of the batch — so with two
trials whose initial joint states differ, trial 1's delay-period target
is the cartesian projection of trial 0's initial state, not of its own
(`delay_time = 1` for trial 1, so timestep 0 lies in its delay
period). -/
theorem C3_cex :
    ((delayedReach_generate id 1 2 1 1 [[0, 0, 0, 0], [1, 1, 0, 0]]
        (fun _ => [5, 5, 0, 0]) (fun i => if i = 0 then 21/20 else 3/2) 2 3).toOption.map
      (fun p => (p.2.getD 1 []).getD 0 [])) = some [0, 0, 0, 0] ∧
    (truncInt (3/2)).toNat = 1 ∧
    id ([1, 1, 0, 0] : Row) ≠ ([0, 0, 0, 0] : Row) := by
  decide

unseal Rat.add Rat.mul Rat.sub Rat.inv in
/-- Closed instantiation of the delayed-reach timeline: both trials have
`delay_time = 1` and `bump_length = 1`, so at timestep 1 the cue channel
holds `bump_height = 1` and the supervised target is the goal state. -/
theorem C3_witness :
    ((([[[5, 5, 0], [5, 5, 1], [5, 5, 0]],
        [[5, 5, 0], [5, 5, 1], [5, 5, 0]]] : Tensor3).getD 1 []).getD 1 []).getD 2 0
      = 1 ∧
    (([[[0, 0, 0, 0], [5, 5, 0, 0], [5, 5, 0, 0]],
       [[0, 0, 0, 0], [5, 5, 0, 0], [5, 5, 0, 0]]] : Tensor3).getD 1 []).getD 1 []
      = [5, 5, 0, 0] := by
  obtain ⟨h1, h2⟩ := C3_delayed_trial_timeline id 1 2 1 1 [[0, 0, 0, 0], [1, 1, 0, 0]]
    (fun _ => [5, 5, 0, 0]) (fun _ => 3/2) 2 3 1 1
    [[[5, 5, 0], [5, 5, 1], [5, 5, 0]], [[5, 5, 0], [5, 5, 1], [5, 5, 0]]]
    [[[0, 0, 0, 0], [5, 5, 0, 0], [5, 5, 0, 0]],
     [[0, 0, 0, 0], [5, 5, 0, 0], [5, 5, 0, 0]]]
    (by decide) (by decide) (by decide) (by decide)
  constructor
  · rw [h1]
    norm_num [truncInt]
  · rw [h2]
    norm_num [truncInt]

/-!  ## Claim C4: `TaskDelayedMultiReach` goal segments and padding  -/

theorem getD_default_irrel {α : Type} (l : List α) (i : ℕ) (a b : α) (h : i < l.length) :
    l.getD i a = l.getD i b := by
  induction l generalizing i with
  | nil => simp at h
  | cons x xs ih =>
    cases i with
    | zero => rfl
    | succ j =>
      simp only [List.getD_cons_succ]
      exact ih j (by simpa using h)

theorem getLastD_eq_getD (l : List Row) (a : Row) (h : l ≠ []) :
    l.getLastD a = l.getD (l.length - 1) a := by
  induction l generalizing a with
  | nil => exact absurd rfl h
  | cons g gs ih =>
    cases gs with
    | nil => rfl
    | cons g2 gs2 =>
      rw [List.getLastD_cons, ih g (by simp)]
      have hlen : (g :: g2 :: gs2 : List Row).length - 1 = ((g2 :: gs2 : List Row).length - 1) + 1 := by
        simp
      rw [hlen, List.getD_cons_succ]
      have hpos : 0 < (g2 :: gs2 : List Row).length := by simp
      exact getD_default_irrel _ _ g a (by omega)

/-- Length of the concatenated goal-segment block. -/
theorem segs_length (goals : List Row) (n : ℕ) :
    ((goals.map (fun row => List.replicate n row)).flatten).length = goals.length * n := by
  induction goals with
  | nil => simp
  | cons g gs ih =>
    simp only [List.map_cons, List.flatten_cons, List.length_append,
      List.length_replicate, ih, List.length_cons]
    ring

/-- Reading the concatenated goal-segment block inside segment `k`. -/
theorem segs_getD (goals : List Row) (n k s : ℕ) (hk : k < goals.length) (hs : s < n) :
    ((goals.map (fun row => List.replicate n row)).flatten).getD (k * n + s) [] =
      goals.getD k [] := by
  induction goals generalizing k with
  | nil => simp at hk
  | cons g gs ih =>
    cases k with
    | zero =>
      simp only [List.map_cons, List.flatten_cons, Nat.zero_mul, Nat.zero_add]
      rw [List.getD_append _ _ _ _ (by simpa using hs)]
      exact getD_replicate _ _ _ _ hs
    | succ j =>
      simp only [List.map_cons, List.flatten_cons]
      have hm : (j + 1) * n + s = n + (j * n + s) := by ring
      rw [hm, List.getD_append_right _ _ _ _ (by simp)]
      simp only [List.length_replicate, Nat.add_sub_cancel_left, List.getD_cons_succ]
      exact ih j (by simpa using hk)

/-- The multi-reach target timeline function, written out: the final
padding write wins, then the goal-segment block, then the two center
writes, else the untouched zero row. -/
theorem multiReach_target_fn_eval (center lastG : Row) (segs : Tensor2)
    (d n seqT t : ℕ) :
    multiReach_trial_target_fn center lastG segs d n seqT t =
      if d + segs.length ≤ t ∧ t < seqT then lastG
      else if n + d ≤ t ∧ t < (n + d) + segs.length then segs.getD (t - (n + d)) []
      else if n ≤ t ∧ t < n + d then center
      else if 0 ≤ t ∧ t < n then center
      else [0, 0, 0, 0] := rfl

/-- Inverting a successful multi-reach trial construction. -/
theorem multiReach_trial_ok (lo hi : ℚ) (bl : ℕ) (bh : ℚ) (center : Row)
    (goals : List Row) (r : ℚ) (n : ℕ) (out : Tensor2 × Tensor2)
    (hok : multiReach_trial lo hi bl bh center goals r n = .ok out) :
    0 ≤ truncInt r ∧ truncInt r ≤ truncInt hi ∧ 2 ≤ goals.length * n ∧ 2 ≤ n ∧
    out = (multiReach_trial_inputs center goals (truncInt r).toNat bl bh n
             (truncInt hi).toNat,
           multiReach_trial_target center (goals.getLastD [])
             ((goals.map (fun row => List.replicate n row)).flatten)
             (truncInt r).toNat n
             ((goals.length + 1) * n + (truncInt hi).toNat + bl)) := by
  simp only [multiReach_trial, generate_delay_time_random, Except.bind] at hok
  split at hok
  · next hcond =>
      exact ⟨hcond.1, hcond.2.1, hcond.2.2.1, hcond.2.2.2, (Except.ok.inj hok).symm⟩
  · exact absurd hok (by simp)

/-- C4: for every trial of a successful `TaskDelayedMultiReach.generate`
call, the supervised target stream after the go-cue (which starts at
`n_timesteps + delay_time`) consists of one `n_timesteps`-length segment
per goal, in order, during which the target equals that goal; and every
timestep after the last goal segment, up to the fixed overall sequence
length `(num_target+1)*n_timesteps + delay_max + bump_length`, holds the
final goal.  The padding write starts exactly at the beginning of the
last goal segment and rewrites it with that same goal's rows, so the
goal segments are never overwritten with different data. -/
theorem C4_multi_segments (j2c : Row → Row) (lo hi : ℚ) (bl : ℕ) (bh : ℚ) (num : ℕ)
    (initJoints : Tensor2) (goalDraw : ℕ → ℕ → Row) (delayDraw : ℕ → ℚ)
    (batch n i k t : ℕ) (inp tgt : Tensor3)
    (hok : multiReach_generate j2c lo hi bl bh num initJoints goalDraw delayDraw batch n
        = .ok (inp, tgt))
    (hib : i < batch) :
    (k < num → n + (truncInt (delayDraw i)).toNat + k * n ≤ t →
      t < n + (truncInt (delayDraw i)).toNat + (k + 1) * n →
      (tgt.getD i []).getD t [] = j2c (goalDraw i k)) ∧
    (1 ≤ num → n + (truncInt (delayDraw i)).toNat + num * n ≤ t →
      t < (num + 1) * n + (truncInt hi).toNat + bl →
      (tgt.getD i []).getD t [] = j2c (goalDraw i (num - 1))) := by
  have h := @generate_ok_trial (fun j => multiReach_trial lo hi bl bh
    (j2c (initJoints.getD 0 []))
    ((List.range num).map fun tg => j2c (goalDraw j tg)) (delayDraw j) n)
    batch inp tgt hok i hib
  obtain ⟨hd0, hdmax, hnn2, hn2, hpair⟩ := multiReach_trial_ok lo hi bl bh _ _ _ n _ h.2.2
  have hglen : ((List.range num).map fun tg => j2c (goalDraw i tg)).length = num := by
    simp
  have hdle : (truncInt (delayDraw i)).toNat ≤ (truncInt hi).toNat :=
    Int.toNat_le_toNat hdmax
  have hsegs : ((((List.range num).map fun tg => j2c (goalDraw i tg)).map
      (fun row => List.replicate n row)).flatten).length = num * n := by
    rw [segs_length, hglen]
  have htgt : tgt.getD i [] = multiReach_trial_target (j2c (initJoints.getD 0 []))
      (((List.range num).map fun tg => j2c (goalDraw i tg)).getLastD [])
      ((((List.range num).map fun tg => j2c (goalDraw i tg)).map
        (fun row => List.replicate n row)).flatten)
      (truncInt (delayDraw i)).toNat n
      ((num + 1) * n + (truncInt hi).toNat + bl) := by
    have hc := congrArg Prod.snd hpair
    rw [hglen] at hc
    exact hc
  have hnpos : 0 < n := by omega
  have hexp1 : (num + 1) * n = n + num * n := by ring
  constructor
  · intro hk h1 h2
    have hGne : ((List.range num).map fun tg => j2c (goalDraw i tg)) ≠ [] := by
      intro hnil
      rw [hnil] at hglen
      simp at hglen
      omega
    have hkn : (k + 1) * n ≤ num * n := Nat.mul_le_mul_right n hk
    have htseq : t < (num + 1) * n + (truncInt hi).toNat + bl := by omega
    rw [htgt]
    unfold multiReach_trial_target
    rw [getD_range_map _ _ t [] htseq]
    rw [multiReach_target_fn_eval, hsegs]
    by_cases h3 : (truncInt (delayDraw i)).toNat + num * n ≤ t
    · rw [if_pos ⟨h3, htseq⟩]
      have hklast : k = num - 1 := by
        by_contra hne
        have hk2 : k + 2 ≤ num := by omega
        have hmul : (k + 2) * n ≤ num * n := Nat.mul_le_mul_right n hk2
        have hexp2 : (k + 2) * n = (k + 1) * n + n := by ring
        omega
      rw [getLastD_eq_getD _ _ hGne, hglen,
        getD_range_map _ num (num - 1) [] (by omega), hklast]
    · rw [if_neg (fun hc => h3 hc.1)]
      have hexp3 : (k + 1) * n = k * n + n := by ring
      rw [if_pos ⟨by omega, by omega⟩]
      have hs : t - (n + (truncInt (delayDraw i)).toNat) - k * n < n := by omega
      have hidx : t - (n + (truncInt (delayDraw i)).toNat) =
          k * n + (t - (n + (truncInt (delayDraw i)).toNat) - k * n) := by omega
      rw [hidx, segs_getD _ n k _ (by rw [hglen]; exact hk) hs]
      rw [getD_range_map _ num k [] hk]
  · intro hnum h1 h2
    have hGne : ((List.range num).map fun tg => j2c (goalDraw i tg)) ≠ [] := by
      intro hnil
      rw [hnil] at hglen
      simp at hglen
      omega
    rw [htgt]
    unfold multiReach_trial_target
    rw [getD_range_map _ _ t [] h2]
    rw [multiReach_target_fn_eval, hsegs]
    rw [if_pos ⟨by omega, h2⟩]
    rw [getLastD_eq_getD _ _ hGne, hglen,
      getD_range_map _ num (num - 1) [] (by omega)]

unseal Rat.add Rat.mul Rat.sub Rat.inv in
/-- Closed instantiation of the multi-reach segment layout: two goals,
`n_timesteps = 2`, delay `1`; timestep 3 lies in the first goal segment
`[3, 5)` and holds the first goal. -/
theorem C4_witness :
    (([[[9, 9, 0, 0], [9, 9, 0, 0], [9, 9, 0, 0], [1, 1, 0, 0], [1, 1, 0, 0],
        [2, 2, 0, 0], [2, 2, 0, 0], [2, 2, 0, 0], [2, 2, 0, 0], [2, 2, 0, 0]]]
      : Tensor3).getD 0 []).getD 3 [] = [1, 1, 0, 0] := by
  have hseg := (C4_multi_segments id 1 3 1 1 2 [[9, 9, 0, 0]]
    (fun _ tg => if tg = 0 then [1, 1, 0, 0] else [2, 2, 0, 0]) (fun _ => 3/2)
    1 2 0 0 3
    [[[9, 9, 9, 9, 0], [9, 9, 9, 9, 0], [1, 1, 2, 2, 0], [1, 1, 2, 2, 1],
      [1, 1, 2, 2, 0], [1, 1, 2, 2, 0], [1, 1, 2, 2, 0], [1, 1, 2, 2, 0],
      [1, 1, 2, 2, 0], [1, 1, 2, 2, 0]]]
    [[[9, 9, 0, 0], [9, 9, 0, 0], [9, 9, 0, 0], [1, 1, 0, 0], [1, 1, 0, 0],
      [2, 2, 0, 0], [2, 2, 0, 0], [2, 2, 0, 0], [2, 2, 0, 0], [2, 2, 0, 0]]]
    (by decide) (by decide)).1 (by norm_num) (by norm_num [truncInt])
    (by norm_num [truncInt])
  exact hseg

/-!  ## Claim C2: batch and time dimensions of every generator  -/

theorem generate_ok_lengths {f : ℕ → Except String (Tensor2 × Tensor2)} {batch : ℕ}
    {inp tgt : Tensor3}
    (hok : (collectE ((List.range batch).map f)).map
        (fun trials => (trials.map Prod.fst, trials.map Prod.snd)) = .ok (inp, tgt)) :
    inp.length = batch ∧ tgt.length = batch := by
  cases hcol : collectE ((List.range batch).map f) with
  | error e => rw [hcol] at hok; simp [Except.map] at hok
  | ok trials =>
    rw [hcol] at hok
    simp only [Except.map, Except.ok.injEq, Prod.mk.injEq] at hok
    obtain ⟨hinp, htgt⟩ := hok
    have hlen : trials.length = batch := by simpa using collectE_ok_length hcol
    exact ⟨by simp [← hinp, hlen], by simp [← htgt, hlen]⟩

theorem delayedReach_input_length (goal : Row) (bump : List ℚ) :
    (delayedReach_trial_input goal bump).length = bump.length := by
  simp [delayedReach_trial_input]

theorem delayedReach_target_length (center goal : Row) (d n : ℕ) :
    (delayedReach_trial_target center goal d n).length = n := by
  simp [delayedReach_trial_target]

theorem multiReach_target_length (center lastG : Row) (segs : Tensor2) (d n seqT : ℕ) :
    (multiReach_trial_target center lastG segs d n seqT).length = seqT := by
  simp [multiReach_trial_target]

theorem multiReach_inputs_length (center : Row) (goals : List Row) (d bl : ℕ) (bh : ℚ)
    (n hmax : ℕ) (hd : d ≤ hmax) :
    (multiReach_trial_inputs center goals d bl bh n hmax).length =
      (goals.length + 1) * n + hmax + bl := by
  unfold multiReach_trial_inputs multiReach_bump
  simp only [List.length_zipWith, List.length_append, List.length_replicate]
  have hexp : (goals.length + 1) * n = n + goals.length * n := by ring
  omega

/-- C2: for every generator variant and every `generate(batch_size,
n_timesteps)` call, the returned inputs and targets have leading (batch)
dimension `batch_size`, and inputs and targets share the same time
dimension, equal to the generator's declared sequence length:
`n_timesteps` for `TaskStaticTarget`,
`TaskStaticTargetWithPerturbations`, `TaskDelayedReach` and
`TaskLoadProbability`, and the derived extended length
`(num_target+1)*n_timesteps + delay_max + bump_length` for
`TaskDelayedMultiReach`. -/
theorem C2_generate_shapes (j2c : Row → Row) (sd : ℕ) (goalDraw : ℕ → Row)
    (goalDraw2 : ℕ → ℕ → Row) (delayDraw : ℕ → ℚ) (probIdx : ℕ → ℕ)
    (catchDraw pertDraw : ℕ → ℚ) (lo hi : ℚ) (bl fixation num : ℕ) (bh : ℚ)
    (initJoints : Tensor2) (batch n : ℕ) :
    ((staticTarget_generate j2c sd goalDraw batch n).1.length = batch ∧
     (staticTarget_generate j2c sd goalDraw batch n).2.length = batch ∧
     (∀ i, i < batch →
       ((staticTarget_generate j2c sd goalDraw batch n).1.getD i []).length = n ∧
       ((staticTarget_generate j2c sd goalDraw batch n).2.getD i []).length = n)) ∧
    ((staticPert_generate j2c sd goalDraw batch n).1.length = batch ∧
     (staticPert_generate j2c sd goalDraw batch n).2.length = batch ∧
     (∀ i, i < batch →
       ((staticPert_generate j2c sd goalDraw batch n).1.getD i []).length = n ∧
       ((staticPert_generate j2c sd goalDraw batch n).2.getD i []).length = n)) ∧
    (∀ inp tgt,
      delayedReach_generate j2c lo hi bl bh initJoints goalDraw delayDraw batch n
          = .ok (inp, tgt) →
      inp.length = batch ∧ tgt.length = batch ∧
      (∀ i, i < batch → (inp.getD i []).length = n ∧ (tgt.getD i []).length = n)) ∧
    (∀ inp tgt,
      multiReach_generate j2c lo hi bl bh num initJoints goalDraw2 delayDraw batch n
          = .ok (inp, tgt) →
      inp.length = batch ∧ tgt.length = batch ∧
      (∀ i, i < batch →
        (inp.getD i []).length = (num + 1) * n + (truncInt hi).toNat + bl ∧
        (tgt.getD i []).length = (num + 1) * n + (truncInt hi).toNat + bl)) ∧
    ((loadProb_generate j2c lo hi fixation initJoints delayDraw probIdx catchDraw
        pertDraw batch n).1.length = batch ∧
     (loadProb_generate j2c lo hi fixation initJoints delayDraw probIdx catchDraw
        pertDraw batch n).2.length = batch ∧
     (∀ i, i < batch →
       ((loadProb_generate j2c lo hi fixation initJoints delayDraw probIdx catchDraw
          pertDraw batch n).1.getD i []).length = n ∧
       ((loadProb_generate j2c lo hi fixation initJoints delayDraw probIdx catchDraw
          pertDraw batch n).2.getD i []).length = n)) := by
  have hT2 : (staticTarget_generate j2c sd goalDraw batch n).2 =
      (List.range batch).map (fun i => List.replicate n (j2c (goalDraw i))) := by
    show state2target (((List.range batch).map goalDraw).map j2c) n = _
    unfold state2target
    rw [List.map_map, List.map_map]
    rfl
  have hT1 : (staticTarget_generate j2c sd goalDraw batch n).1 =
      (List.range batch).map
        (fun i => (List.replicate n (j2c (goalDraw i))).map (fun row => row.take sd)) := by
    show (state2target (((List.range batch).map goalDraw).map j2c) n).map _ = _
    unfold state2target
    rw [List.map_map, List.map_map, List.map_map]
    rfl
  have hP2 : (staticPert_generate j2c sd goalDraw batch n).2 =
      (List.range batch).map (fun i => List.replicate n (j2c (goalDraw i))) := by
    show state2target (((List.range batch).map goalDraw).map j2c) n = _
    unfold state2target
    rw [List.map_map, List.map_map]
    rfl
  have hP1 : (staticPert_generate j2c sd goalDraw batch n).1 =
      (List.range batch).map
        (fun i => (List.replicate n (j2c (goalDraw i))).map
          (fun row => row.take sd ++ [5, 5])) := by
    show (state2target (((List.range batch).map goalDraw).map j2c) n).map _ = _
    unfold state2target
    rw [List.map_map, List.map_map, List.map_map]
    rfl
  have hL1 : (loadProb_generate j2c lo hi fixation initJoints delayDraw probIdx
      catchDraw pertDraw batch n).1 =
      (List.range batch).map (fun i =>
        (loadProb_trial fixation n (j2c (initJoints.getD 0 []))
          (List.zipWith (· + ·) (j2c (initJoints.getD 0 []))
            [-28279/1000000, -42601/1000000, 0, 0])
          (((generate_delay_time lo hi "random" (delayDraw i)).toOption.getD 0).toNat)
          (prob_array.getD (probIdx i) 0) (catchDraw i) (pertDraw i)).1) := by
    show (((List.range batch).map _).map Prod.fst) = _
    rw [List.map_map]
    rfl
  have hL2 : (loadProb_generate j2c lo hi fixation initJoints delayDraw probIdx
      catchDraw pertDraw batch n).2 =
      (List.range batch).map (fun i =>
        (loadProb_trial fixation n (j2c (initJoints.getD 0 []))
          (List.zipWith (· + ·) (j2c (initJoints.getD 0 []))
            [-28279/1000000, -42601/1000000, 0, 0])
          (((generate_delay_time lo hi "random" (delayDraw i)).toOption.getD 0).toNat)
          (prob_array.getD (probIdx i) 0) (catchDraw i) (pertDraw i)).2) := by
    show (((List.range batch).map _).map Prod.snd) = _
    rw [List.map_map]
    rfl
  refine ⟨⟨?_, ?_, ?_⟩, ⟨?_, ?_, ?_⟩, ?_, ?_, ?_, ?_, ?_⟩
  · rw [hT1]; simp
  · rw [hT2]; simp
  · intro i hib
    rw [hT1, hT2, getD_range_map _ batch i [] hib, getD_range_map _ batch i [] hib]
    simp
  · rw [hP1]; simp
  · rw [hP2]; simp
  · intro i hib
    rw [hP1, hP2, getD_range_map _ batch i [] hib, getD_range_map _ batch i [] hib]
    simp
  · intro inp tgt hok
    refine ⟨(generate_ok_lengths hok).1, (generate_ok_lengths hok).2, ?_⟩
    intro i hib
    have h := @generate_ok_trial (fun k => delayedReach_trial lo hi bl bh
      (j2c (initJoints.getD 0 [])) (j2c (goalDraw k)) (delayDraw k) n)
      batch inp tgt hok i hib
    obtain ⟨hd0, hdbl, hn2, hpair⟩ := delayedReach_trial_ok lo hi bl bh _ _ _ n _ h.2.2
    rw [Prod.mk.injEq] at hpair
    constructor
    · rw [hpair.1, delayedReach_input_length,
        delayedReach_bump_length _ bl bh n hdbl]
    · rw [hpair.2, delayedReach_target_length]
  · intro inp tgt hok
    refine ⟨(generate_ok_lengths hok).1, (generate_ok_lengths hok).2, ?_⟩
    intro i hib
    have h := @generate_ok_trial (fun k => multiReach_trial lo hi bl bh
      (j2c (initJoints.getD 0 []))
      ((List.range num).map fun tg => j2c (goalDraw2 k tg)) (delayDraw k) n)
      batch inp tgt hok i hib
    obtain ⟨hd0, hdmax, hnn2, hn2, hpair⟩ :=
      multiReach_trial_ok lo hi bl bh _ _ _ n _ h.2.2
    have hglen : ((List.range num).map fun tg => j2c (goalDraw2 i tg)).length = num := by
      simp
    rw [Prod.mk.injEq] at hpair
    constructor
    · rw [hpair.1,
        multiReach_inputs_length _ _ _ bl bh n _ (Int.toNat_le_toNat hdmax), hglen]
    · rw [hpair.2, multiReach_target_length, hglen]
  · rw [hL1]; simp
  · rw [hL2]; simp
  · intro i hib
    rw [hL1, hL2, getD_range_map _ batch i [] hib, getD_range_map _ batch i [] hib]
    constructor
    · show ((List.range n).map _).length = n
      simp
    · show ((List.range n).map _).length = n
      simp

unseal Rat.add Rat.mul Rat.sub Rat.inv in
/-- Closed instantiation of the shape specification: two trials,
`n_timesteps = 2`, delay draw `1.5`, two goals for the multi-reach
generator (extended length `(2+1)*2 + 3 + 1 = 10`). -/
theorem C2_witness :
    (staticTarget_generate id 2 (fun _ => [5, 5, 0, 0]) 2 2).1.length = 2 ∧
    ((staticTarget_generate id 2 (fun _ => [5, 5, 0, 0]) 2 2).2.getD 0 []).length = 2 ∧
    ((staticPert_generate id 2 (fun _ => [5, 5, 0, 0]) 2 2).1.getD 0 []).length = 2 ∧
    ([[[5, 5, 0], [5, 5, 1]], [[5, 5, 0], [5, 5, 1]]] : Tensor3).length = 2 ∧
    (([[[9, 9, 0, 0], [5, 5, 0, 0]], [[9, 9, 0, 0], [5, 5, 0, 0]]] : Tensor3).getD 0
      []).length = 2 ∧
    (([[[9, 9, 9, 9, 0], [9, 9, 9, 9, 0], [1, 1, 2, 2, 0], [1, 1, 2, 2, 1],
        [1, 1, 2, 2, 0], [1, 1, 2, 2, 0], [1, 1, 2, 2, 0], [1, 1, 2, 2, 0],
        [1, 1, 2, 2, 0], [1, 1, 2, 2, 0]],
       [[9, 9, 9, 9, 0], [9, 9, 9, 9, 0], [1, 1, 2, 2, 0], [1, 1, 2, 2, 1],
        [1, 1, 2, 2, 0], [1, 1, 2, 2, 0], [1, 1, 2, 2, 0], [1, 1, 2, 2, 0],
        [1, 1, 2, 2, 0], [1, 1, 2, 2, 0]]] : Tensor3).getD 0 []).length = 10 ∧
    ([[[9, 9, 0, 0], [9, 9, 0, 0], [9, 9, 0, 0], [1, 1, 0, 0], [1, 1, 0, 0],
       [2, 2, 0, 0], [2, 2, 0, 0], [2, 2, 0, 0], [2, 2, 0, 0], [2, 2, 0, 0]],
      [[9, 9, 0, 0], [9, 9, 0, 0], [9, 9, 0, 0], [1, 1, 0, 0], [1, 1, 0, 0],
       [2, 2, 0, 0], [2, 2, 0, 0], [2, 2, 0, 0], [2, 2, 0, 0], [2, 2, 0, 0]]]
      : Tensor3).length = 2 ∧
    (loadProb_generate id 1 3 1 [[9, 9, 0, 0]] (fun _ => 3/2) (fun _ => 4)
      (fun _ => 1/2) (fun _ => 1/2) 2 2).1.length = 2 ∧
    ((loadProb_generate id 1 3 1 [[9, 9, 0, 0]] (fun _ => 3/2) (fun _ => 4)
      (fun _ => 1/2) (fun _ => 1/2) 2 2).2.getD 0 []).length = 2 := by
  obtain ⟨hs, hp, hd, hm, hl⟩ := C2_generate_shapes id 2 (fun _ => [5, 5, 0, 0])
    (fun _ tg => if tg = 0 then [1, 1, 0, 0] else [2, 2, 0, 0]) (fun _ => 3/2)
    (fun _ => 4) (fun _ => 1/2) (fun _ => 1/2) 1 3 1 1 2 1 [[9, 9, 0, 0]] 2 2
  obtain ⟨hd1, hd2, hd3⟩ := hd
    [[[5, 5, 0], [5, 5, 1]], [[5, 5, 0], [5, 5, 1]]]
    [[[9, 9, 0, 0], [5, 5, 0, 0]], [[9, 9, 0, 0], [5, 5, 0, 0]]] (by decide)
  obtain ⟨hm1, hm2, hm3⟩ := hm
    [[[9, 9, 9, 9, 0], [9, 9, 9, 9, 0], [1, 1, 2, 2, 0], [1, 1, 2, 2, 1],
      [1, 1, 2, 2, 0], [1, 1, 2, 2, 0], [1, 1, 2, 2, 0], [1, 1, 2, 2, 0],
      [1, 1, 2, 2, 0], [1, 1, 2, 2, 0]],
     [[9, 9, 9, 9, 0], [9, 9, 9, 9, 0], [1, 1, 2, 2, 0], [1, 1, 2, 2, 1],
      [1, 1, 2, 2, 0], [1, 1, 2, 2, 0], [1, 1, 2, 2, 0], [1, 1, 2, 2, 0],
      [1, 1, 2, 2, 0], [1, 1, 2, 2, 0]]]
    [[[9, 9, 0, 0], [9, 9, 0, 0], [9, 9, 0, 0], [1, 1, 0, 0], [1, 1, 0, 0],
      [2, 2, 0, 0], [2, 2, 0, 0], [2, 2, 0, 0], [2, 2, 0, 0], [2, 2, 0, 0]],
     [[9, 9, 0, 0], [9, 9, 0, 0], [9, 9, 0, 0], [1, 1, 0, 0], [1, 1, 0, 0],
      [2, 2, 0, 0], [2, 2, 0, 0], [2, 2, 0, 0], [2, 2, 0, 0], [2, 2, 0, 0]]]
    (by decide)
  have hmlen := (hm3 0 (by decide)).1
  rw [show ((2 + 1) * 2 + (truncInt 3).toNat + 1 : ℕ) = 10 from by decide] at hmlen
  exact ⟨hs.1, (hs.2.2 0 (by decide)).2, (hp.2.2 0 (by decide)).1, hd1,
    (hd3 0 (by decide)).2, hmlen, hm2, hl.1, (hl.2.2 0 (by decide)).2⟩
